import Mathlib

/-!
Shallow embedding of `src/app.py` (boiler heating-surface catalog dashboard).

JSON leaf values reaching the core routines are null, strings, numbers, or
lists of strings; `Value` models them.  A field modelled as `Value` with
`Value.vNone` covers both an absent key and an explicit JSON `null`, which
the source never distinguishes (it always reads such fields with
one-argument `dict.get`).  The two places where the source uses
two-argument `dict.get` on a possibly-absent key (`notes` on surfaces and
components) are modelled as `Option Value`, `none` meaning the key is
absent.  Python floats entered through the numeric form widgets are
modelled as rationals.
-/

set_option autoImplicit false

/-- The whitespace characters stripped by Python `str.strip()` (ASCII
whitespace; the data never carries exotic Unicode spaces). -/
def isSpaceChar (c : Char) : Bool :=
  c = ' ' ∨ c = '\t' ∨ c = '\n' ∨ c = '\r' ∨ c = '\x0b' ∨ c = '\x0c'

/-- Python `str.strip()`: drop leading and trailing whitespace. -/
def String.pyStrip (s : String) : String :=
  ⟨((s.data.dropWhile isSpaceChar).reverse.dropWhile isSpaceChar).reverse⟩

namespace Basakotel

/-- A JSON-ish leaf value as handled by the app. -/
inductive Value where
  | vNone
  | vStr (s : String)
  | vInt (n : Int)
  | vRat (q : ℚ)
  | vList (xs : List String)
  deriving DecidableEq, Repr, Inhabited

/-- Python truthiness of a `Value` (`if value:`). -/
def Value.truthy : Value → Bool
  | .vNone => false
  | .vStr s => s ≠ ""
  | .vInt n => n ≠ 0
  | .vRat q => q ≠ 0
  | .vList xs => xs ≠ []

/-- Python `str(value)` for the non-list values the app stringifies
(numbers and strings; `str(None)` is `"None"`).  The list case is never
reached by the source's stringification paths (lists are join-ed first);
it is given the space-join form for totality. -/
def pyStr : Value → String
  | .vNone => "None"
  | .vStr s => s
  | .vInt n => toString n
  | .vRat q => toString q
  | .vList xs => String.intercalate " " xs

/-- Python `str.lower()` restricted to the alphabets the data uses:
ASCII letters and the Cyrillic range (А-Я, Ё). -/
def pyLowerChar (c : Char) : Char :=
  if 0x41 ≤ c.toNat ∧ c.toNat ≤ 0x5A then Char.ofNat (c.toNat + 0x20)
  else if 0x410 ≤ c.toNat ∧ c.toNat ≤ 0x42F then Char.ofNat (c.toNat + 0x20)
  else if c.toNat = 0x401 then Char.ofNat 0x451
  else c

/-- Lower-cased character data of a string. -/
def lowerData (s : String) : List Char :=
  s.data.map pyLowerChar

/-- Python `needle in hay` on strings: contiguous substring test. -/
def containsSub (hay needle : List Char) : Bool :=
  hay.tails.any (fun t => needle.isPrefixOf t)

/-- A component of a surface (`surface["components"][i]`). -/
structure Component where
  description : Value := .vNone
  section' : Value := .vNone
  steel : Value := .vNone
  pressure : Value := .vNone
  temperature : Value := .vNone
  outerDiameter : Value := .vNone
  wallThickness : Value := .vNone
  /-- Value `none` models an absent `notes` key (two-argument `get` in source). -/
  notes : Option Value := none
  deriving DecidableEq, Repr, Inhabited

/-- A heating surface of a boiler. -/
structure Surface where
  name : Value := .vNone
  surface_group : Value := .vNone
  section' : Value := .vNone
  aliases : List String := []
  category : Value := .vNone
  system : Value := .vNone
  steel : Value := .vNone
  pressure : Value := .vNone
  temperature : Value := .vNone
  outerDiameter : Value := .vNone
  wallThickness : Value := .vNone
  loadCondition : Value := .vNone
  /-- Value `none` models an absent `notes` key (two-argument `get` in source). -/
  notes : Option Value := none
  components : List Component := []
  deriving DecidableEq, Repr, Inhabited

/-- A boiler record. -/
structure Boiler where
  id : Value := .vNone
  name : Value := .vNone
  station : Value := .vNone
  boilerType : Value := .vNone
  location : Value := .vNone
  notes : Value := .vNone
  surfaces : List Surface := []
  deriving DecidableEq, Repr, Inhabited

/-- The persisted catalog: `{"boilers": [...]}`. -/
structure Catalog where
  boilers : List Boiler := []
  deriving DecidableEq, Repr, Inhabited

/-- One flattened display row; the fields are listed in the insertion
order of the row dict literals in `flatten_surfaces`. -/
structure Row where
  boiler_id : Value := .vNone
  boiler_name : Value := .vNone
  station : Value := .vNone
  boiler_type : Value := .vNone
  surface : Value := .vNone
  surface_group : Value := .vNone
  section' : Value := .vNone
  aliases : Value := .vNone
  category : Value := .vNone
  system : Value := .vNone
  steel : Value := .vNone
  pressure : Value := .vNone
  temperature : Value := .vNone
  outer_diameter : Value := .vNone
  wall_thickness : Value := .vNone
  notes : Value := .vNone
  deriving DecidableEq, Repr, Inhabited

/-- The list `item.values()` of a row dict. -/
def Row.values (r : Row) : List Value :=
  [r.boiler_id, r.boiler_name, r.station, r.boiler_type, r.surface,
   r.surface_group, r.section', r.aliases, r.category, r.system, r.steel,
   r.pressure, r.temperature, r.outer_diameter, r.wall_thickness, r.notes]

/-- The alias display string: `", ".join(aliases) if aliases else ""`. -/
def aliasStr (xs : List String) : String :=
  if xs ≠ [] then String.intercalate ", " xs else ""

/-- The row emitted for a surface without components (`base_row`). -/
def baseRow (b : Boiler) (s : Surface) : Row :=
  { boiler_id := b.id
    boiler_name := b.name
    station := b.station
    boiler_type := b.boilerType
    surface := s.name
    surface_group := s.surface_group
    section' := s.section'
    aliases := .vStr (aliasStr s.aliases)
    category := s.category
    system := s.system
    steel := s.steel
    pressure := s.pressure
    temperature := s.temperature
    outer_diameter := s.outerDiameter
    wall_thickness := s.wallThickness
    notes := s.notes.getD (.vStr "") }

/-- The row emitted for one component of a surface. -/
def componentRow (b : Boiler) (s : Surface) (c : Component) : Row :=
  { boiler_id := b.id
    boiler_name := b.name
    station := b.station
    boiler_type := b.boilerType
    surface := .vStr (pyStr s.name ++ " — " ++ pyStr c.description)
    surface_group := s.surface_group
    section' := if (Component.section' c).truthy then c.section' else s.section'
    aliases := .vStr (aliasStr s.aliases)
    category := s.category
    system := s.system
    steel := c.steel
    pressure := c.pressure
    temperature := c.temperature
    outer_diameter := c.outerDiameter
    wall_thickness := c.wallThickness
    notes := c.notes.getD (s.notes.getD (.vStr "")) }

/-- Rows contributed by one surface. -/
def surfaceRows (b : Boiler) (s : Surface) : List Row :=
  if s.components = [] then [baseRow b s]
  else s.components.map (componentRow b s)

/-- Function `flatten_surfaces` from the source. -/
def flatten_surfaces (data : Catalog) : List Row :=
  data.boilers.flatMap (fun b => b.surfaces.flatMap (surfaceRows b))

/-- Function `match_query` from the source: case-insensitive substring search over
the row's values, skipping `None`, joining lists with spaces. -/
def match_query (item : Row) (query : String) : Bool :=
  item.values.any (fun v =>
    match v with
    | .vNone => false
    | .vList xs => containsSub (lowerData (String.intercalate " " xs)) (lowerData query)
    | v => containsSub (lowerData (pyStr v)) (lowerData query))

/-- Function `find_boiler` from the source returns the first boiler whose `id`
equals the argument; modelled as the index of that boiler. -/
def find_boiler (data : Catalog) (bid : Value) : Option Nat :=
  data.boilers.findIdx? (fun b => b.id = bid)

/-- Index of the last boiler whose `id` equals `v`.  This models the
`index` dict of `merge_uploaded_boilers`: a dict comprehension keyed by
`id` keeps the last record for a duplicated id, and boilers appended
during the merge (always at the end of the list) overwrite their key. -/
def lastIdxOf (bs : List Boiler) (v : Value) : Option Nat :=
  match bs with
  | [] => none
  | b :: rest =>
    match lastIdxOf rest v with
    | some i => some (i + 1)
    | none => if b.id = v then some 0 else none

/-- Truthy surface names of a list of surfaces: the set
`{s.get("name") for s in existing_surfaces if s.get("name")}`. -/
def truthyNames (ss : List Surface) : List Value :=
  (ss.map Surface.name).filter (fun n => n.truthy)

/-- The inner surface loop of `merge_uploaded_boilers`: walk the incoming
surfaces, appending each one whose name is not yet in `names`, recording
its name (truthy or not) and bumping the counter. -/
def mergeSurfacesLoop (es : List Surface) (names : List Value) (cnt : Nat) :
    List Surface → List Surface × List Value × Nat
  | [] => (es, names, cnt)
  | s :: rest =>
    if s.name ∈ names then mergeSurfacesLoop es names cnt rest
    else mergeSurfacesLoop (es ++ [s]) (names ++ [s.name]) (cnt + 1) rest

/-- Replacing the surface list of the boiler at index `i` (the in-place
mutation of `target["surfaces"]` through the shared reference). -/
def updateAt (bs : List Boiler) (i : Nat) (surfs : List Surface) : List Boiler :=
  bs.set i { bs.getD i default with surfaces := surfs }

/-- One iteration of the candidate loop of `merge_uploaded_boilers`. -/
def mergeStep (st : List Boiler × Nat) (c : Boiler) : List Boiler × Nat :=
  if ¬ c.id.truthy then st
  else
    match lastIdxOf st.1 c.id with
    | none => (st.1 ++ [c], st.2 + 1)
    | some i =>
      let target := st.1.getD i default
      let r := mergeSurfacesLoop target.surfaces (truthyNames target.surfaces) 0 c.surfaces
      (updateAt st.1 i r.1, st.2 + r.2.2)

/-- Function `merge_uploaded_boilers` from the source, functionally: returns the
mutated catalog together with the count the Python function returns. -/
def merge_uploaded_boilers (existing incoming : Catalog) : Catalog × Nat :=
  let r := incoming.boilers.foldl mergeStep (existing.boilers, 0)
  (⟨r.1⟩, r.2)

/-- The raw widget state of the add-surface form (`build_surface_payload`).
The numeric widgets have `min_value=0.0`, so their values are nonnegative;
they are modelled as rationals. -/
structure SurfaceForm where
  surface_name : String := ""
  aliases_raw : String := ""
  steel : String := ""
  pressure : ℚ := 0
  temperature : ℚ := 0
  outer_diameter : ℚ := 0
  wall_thickness : ℚ := 0
  load_condition : String := ""
  notes : String := ""
  deriving DecidableEq, Repr, Inhabited

/-- The dict returned by `build_surface_payload` on submit. -/
structure SurfacePayload where
  name : String
  aliases : List String
  steel : Option String
  pressure : Option ℚ
  temperature : Option ℚ
  outerDiameter : Option ℚ
  wallThickness : Option ℚ
  loadCondition : Option String
  notes : Option String
  deriving DecidableEq, Repr

/-- Function `build_surface_payload` from the source (the submitted branch). -/
def build_surface_payload (f : SurfaceForm) : SurfacePayload :=
  { name := f.surface_name.pyStrip
    aliases := ((f.aliases_raw.splitOn ",").filter (fun a => a.pyStrip ≠ "")).map String.pyStrip
    steel := if f.steel.pyStrip = "" then none else some f.steel.pyStrip
    pressure := if 0 < f.pressure then some f.pressure else none
    temperature := if 0 < f.temperature then some f.temperature else none
    outerDiameter := if 0 < f.outer_diameter then some f.outer_diameter else none
    wallThickness := if 0 < f.wall_thickness then some f.wall_thickness else none
    loadCondition := if f.load_condition.pyStrip = "" then none else some f.load_condition.pyStrip
    notes := if f.notes.pyStrip = "" then none else some f.notes.pyStrip }

/-- An optional string of the payload as the stored JSON value
(`None` becomes JSON null). -/
def optStrV : Option String → Value
  | none => .vNone
  | some s => .vStr s

/-- An optional rational of the payload as the stored JSON value. -/
def optRatV : Option ℚ → Value
  | none => .vNone
  | some q => .vRat q

/-- The payload dict as a stored `Surface` record.  All payload keys are
present in the dict (possibly with value `None`), so `notes` is
`some _`; keys the payload does not set (`category`, `system`,
`section`, `surface_group`, `components`) are absent. -/
def payloadToSurface (p : SurfacePayload) : Surface :=
  { name := .vStr p.name
    aliases := p.aliases
    steel := optStrV p.steel
    pressure := optRatV p.pressure
    temperature := optRatV p.temperature
    outerDiameter := optRatV p.outerDiameter
    wallThickness := optRatV p.wallThickness
    loadCondition := optStrV p.loadCondition
    notes := some (optStrV p.notes) }

/-- The raw widget state of the new-boiler inputs in `main`. -/
structure NewBoilerForm where
  id : String := ""
  name : String := ""
  location : String := ""
  notes : String := ""
  deriving DecidableEq, Repr, Inhabited

/-- The dict comprehension keeping only truthy fields of new_boiler, followed by
`new_record["surfaces"] = [surface_payload]`: the boiler record `main`
appends for a new boiler.  A field filtered out by the truthiness test is
absent, i.e. `vNone`; `station` and `boilerType` are never set. -/
def newBoilerRecord (nb : NewBoilerForm) (p : SurfacePayload) : Boiler :=
  { id := if nb.id.pyStrip = "" then .vNone else .vStr nb.id.pyStrip
    name := if nb.name.pyStrip = "" then .vNone else .vStr nb.name.pyStrip
    location := if nb.location.pyStrip = "" then .vNone else .vStr nb.location.pyStrip
    notes := if nb.notes.pyStrip = "" then .vNone else .vStr nb.notes.pyStrip
    station := .vNone
    boilerType := .vNone
    surfaces := [payloadToSurface p] }

/-- The boiler selectbox in `main`: the sentinel "Новый котёл" or an
existing boiler id. -/
inductive Selection where
  | newBoiler
  | existing (bid : Value)
  deriving DecidableEq, Repr

/-- The user-visible outcome of a surface submission in `main`. -/
inductive FormMsg where
  | errEmptyName
  | errEmptyBoilerId
  | errNotFound
  | okNewBoiler
  | okExistingSurface
  deriving DecidableEq, Repr

/-- Result of the add-surface branch of `main`: the in-memory catalog
afterwards, whether `save_data` was called, and the message shown. -/
structure SubmitResult where
  data : Catalog
  saved : Bool
  msg : Option FormMsg
  deriving DecidableEq, Repr

/-- The add-surface branch of `main` (lines 316-351 of the source):
validation of the surface name and the new-boiler id, appending either a
whole new boiler record or one surface to the selected boiler, and
persisting on success.  `form = none` models an unsubmitted form
(`build_surface_payload` returned `{}`). -/
def handleSurfaceSubmit (data : Catalog) (sel : Selection) (nb : NewBoilerForm)
    (form : Option SurfaceForm) : SubmitResult :=
  match form with
  | none => ⟨data, false, none⟩
  | some f =>
    if (build_surface_payload f).name = "" then ⟨data, false, some .errEmptyName⟩
    else
      match sel with
      | .newBoiler =>
        if nb.id.pyStrip = "" then ⟨data, false, some .errEmptyBoilerId⟩
        else ⟨⟨data.boilers ++ [newBoilerRecord nb (build_surface_payload f)]⟩,
              true, some .okNewBoiler⟩
      | .existing bid =>
        match find_boiler data bid with
        | none => ⟨data, false, some .errNotFound⟩
        | some i =>
          ⟨⟨updateAt data.boilers i ((data.boilers.getD i default).surfaces
              ++ [payloadToSurface (build_surface_payload f)])⟩,
           true, some .okExistingSurface⟩

/-- Function `row_matches` from `main`: the sidebar filter predicate over one row.
Each selection list models one multiselect; `query` models the free-text
search box. -/
def row_matches (stationSel typeSel steelSel catSel sysSel : List Value)
    (query : String) (row : Row) : Bool :=
  if stationSel ≠ [] ∧ row.station ∉ stationSel then false
  else if typeSel ≠ [] ∧ row.boiler_type ∉ typeSel then false
  else if steelSel ≠ [] ∧ row.steel ∉ steelSel then false
  else if catSel ≠ [] ∧ row.category ∉ catSel then false
  else if sysSel ≠ [] ∧ row.system ∉ sysSel then false
  else if query ≠ "" ∧ match_query row query = false then false
  else true

/-- The "string form" of a field value used by the free-text search: a
list-valued field is joined with spaces, everything else is stringified. -/
def displayStr : Value → String
  | .vList xs => String.intercalate " " xs
  | v => pyStr v

/-- Total number of surface records across a list of boilers. -/
def totalSurf (bs : List Boiler) : Nat :=
  (bs.map (fun b => b.surfaces.length)).sum

/-! Concrete example data used by counterexamples and witnesses. -/

/-- A component that provides no leaf field at all. -/
def exBareComp : Component := {}

/-- A surface with steel "Ст20" and one component that omits every leaf
field. -/
def exSurfSteel : Surface :=
  { name := .vStr "Экран", steel := .vStr "Ст20", components := [exBareComp] }

def exBoilerSteel : Boiler := { id := .vStr "B1", surfaces := [exSurfSteel] }

/-- Catalog with a single boiler carrying `exSurfSteel`. -/
def exCatSteel : Catalog := ⟨[exBoilerSteel]⟩

def exCompA : Component := { description := .vStr "вход", steel := .vStr "12Х1МФ" }

def exCompB : Component := { description := .vStr "выход" }

/-- A surface with two components. -/
def exSurfTwoComp : Surface :=
  { name := .vStr "Пароперегреватель", components := [exCompA, exCompB] }

/-- A plain surface without components. -/
def exSurfPlain : Surface := { name := .vStr "Экономайзер", steel := .vStr "Ст20" }

def exBoilerTwo : Boiler :=
  { id := .vStr "B1", station := .vStr "StationA", surfaces := [exSurfPlain, exSurfTwoComp] }

/-- Catalog with one boiler holding two surfaces, one of which has two
components (N = 2). -/
def exCatTwo : Catalog := ⟨[exBoilerTwo]⟩

/-- A surface whose name is the empty string. -/
def exSurfEmptyName : Surface := { name := .vStr "" }

def exBoilerEmptyName : Boiler := { id := .vStr "B1", surfaces := [exSurfEmptyName] }

/-- Catalog whose single boiler has one surface with an empty name. -/
def exCatEmptyName : Catalog := ⟨[exBoilerEmptyName]⟩

/-- Uploaded fragment: same boiler id, same empty surface name. -/
def exIncEmptyName : Catalog := ⟨[exBoilerEmptyName]⟩

def exSurfS1 : Surface := { name := .vStr "S1" }

def exSurfS2 : Surface := { name := .vStr "S2" }

def exSurfS2b : Surface := { name := .vStr "S2", steel := .vStr "b" }

def exBoilerMerge : Boiler := { id := .vStr "B1", surfaces := [exSurfS1] }

/-- Catalog with one boiler "B1" holding surface "S1". -/
def exCatMerge : Catalog := ⟨[exBoilerMerge]⟩

def exIncBoilerMerge : Boiler := { id := .vStr "B1", surfaces := [exSurfS2] }

/-- Fragment with boiler "B1" and a single new surface name "S2". -/
def exIncMerge : Catalog := ⟨[exIncBoilerMerge]⟩

def exIncBoilerDup : Boiler := { id := .vStr "B1", surfaces := [exSurfS2, exSurfS2b] }

/-- Fragment with boiler "B1" and two surfaces sharing the name "S2". -/
def exIncDup : Catalog := ⟨[exIncBoilerDup]⟩

/-- Fragment identical to the existing boiler "B1" (same surface name). -/
def exIncSame : Catalog := ⟨[exBoilerMerge]⟩

/-- A row whose steel field is "Ст20". -/
def exRowSteel : Row := { steel := .vStr "Ст20" }

/-- A filled surface form. -/
def exForm : SurfaceForm :=
  { surface_name := " Экран ", aliases_raw := "ширмы, ", steel := "Ст20",
    pressure := 14, temperature := 0, outer_diameter := 32, wall_thickness := 0,
    load_condition := "", notes := "" }

/-- A surface form whose name is whitespace-only. -/
def exFormBlank : SurfaceForm := { surface_name := "   " }

/-- A new-boiler form with empty name and notes. -/
def exNewBoiler : NewBoilerForm := { id := " K7 ", name := "", location := "Цех 2", notes := "" }

/-! Helper lemmas. -/

theorem containsSub_iff (hay needle : List Char) :
    containsSub hay needle = true ↔ ∃ pre post, hay = pre ++ needle ++ post := by
  unfold containsSub
  rw [List.any_eq_true]
  constructor
  · rintro ⟨t, ht, hp⟩
    rw [List.mem_tails] at ht
    rw [ List.isPrefixOf_iff_prefix] at hp
    obtain ⟨pre, hpre⟩ := ht
    obtain ⟨post, hpost⟩ := hp
    exact ⟨pre, post, by rw [← hpre, ← hpost, List.append_assoc]⟩
  · rintro ⟨pre, post, h⟩
    refine ⟨needle ++ post, ?_, ?_⟩
    · rw [List.mem_tails]
      exact ⟨pre, by rw [h, List.append_assoc]⟩
    · rw [ List.isPrefixOf_iff_prefix]
      exact ⟨post, rfl⟩

theorem set_getD_self {α : Type} (l : List α) (i : Nat) (d : α) :
    l.set i (l.getD i d) = l := by
  induction l generalizing i with
  | nil => simp
  | cons x xs ih =>
    cases i with
    | zero => simp [List.getD]
    | succ j =>
      rw [List.getD_cons_succ]
      show x :: xs.set j (xs.getD j d) = x :: xs
      rw [ih]

theorem getD_set_self {α : Type} (l : List α) (i : Nat) (x d : α) (h : i < l.length) :
    (l.set i x).getD i d = x := by
  induction l generalizing i with
  | nil => simp at h
  | cons y ys ih =>
    cases i with
    | zero => simp [List.getD]
    | succ j => simpa [List.getD_cons_succ] using ih j (by simpa using h)

theorem totalSurf_set (l : List Boiler) (i : Nat) (x : Boiler) (d : Boiler)
    (h : i < l.length) :
    totalSurf (l.set i x) + (l.getD i d).surfaces.length
      = totalSurf l + x.surfaces.length := by
  induction l generalizing i with
  | nil => simp at h
  | cons y ys ih =>
    cases i with
    | zero => simp [totalSurf, List.getD]; omega
    | succ j =>
      have := ih j (by simpa using h)
      simp only [List.set, totalSurf, List.map_cons, List.sum_cons, List.getD_cons_succ]
      simp only [totalSurf] at this
      omega

theorem lastIdxOf_lt_length (bs : List Boiler) (v : Value) (i : Nat)
    (h : lastIdxOf bs v = some i) : i < bs.length := by
  induction bs generalizing i with
  | nil => simp [lastIdxOf] at h
  | cons b rest ih =>
    unfold lastIdxOf at h
    cases hr : lastIdxOf rest v with
    | some j =>
      rw [hr] at h
      have := ih j hr
      simp only [Option.some.injEq] at h
      simp [← h, List.length_cons]
      omega
    | none =>
      rw [hr] at h
      by_cases hb : b.id = v
      · simp [hb] at h
        simp [← h]
      · simp [hb] at h

theorem lastIdxOf_eq_none (a : List Boiler) (v : Value)
    (h : ∀ b ∈ a, b.id ≠ v) : lastIdxOf a v = none := by
  induction a with
  | nil => rfl
  | cons b rest ih =>
    unfold lastIdxOf
    rw [ih (fun b hb => h b (List.mem_cons_of_mem _ hb))]
    simp [h b (List.mem_cons_self b rest)]

theorem lastIdxOf_append (u a : List Boiler) (v : Value)
    (h : ∀ b ∈ a, b.id ≠ v) : lastIdxOf (u ++ a) v = lastIdxOf u v := by
  induction u with
  | nil => simpa using lastIdxOf_eq_none a v h
  | cons b rest ih =>
    show lastIdxOf (b :: (rest ++ a)) v = lastIdxOf (b :: rest) v
    unfold lastIdxOf
    rw [ih]

/-- Full characterisation of the inner surface loop of the merger: it
appends some sublist `added` of the incoming surfaces, extends the name
set by exactly the names of `added`, and bumps the counter by
`added.length`; the added surfaces have pairwise distinct names, none of
which was already in the name set, and every incoming surface whose name
was not in the name set has its name among the added ones. -/
theorem mergeSurfacesLoop_spec (inc : List Surface) :
    ∀ (es : List Surface) (names : List Value) (n : Nat),
    ∃ added : List Surface,
      mergeSurfacesLoop es names n inc
        = (es ++ added, names ++ added.map Surface.name, n + added.length) ∧
      List.Sublist added inc ∧
      (added.map Surface.name).Nodup ∧
      (∀ s ∈ added, s.name ∉ names) ∧
      (∀ s ∈ inc, s.name ∉ names → s.name ∈ added.map Surface.name) := by
  induction inc with
  | nil =>
    intro es names n
    exact ⟨[], by simp [mergeSurfacesLoop], by simp, by simp, by simp, by simp⟩
  | cons s rest ih =>
    intro es names n
    by_cases h : s.name ∈ names
    · obtain ⟨added, heq, hsub, hnd, hnin, hcomp⟩ := ih es names n
      refine ⟨added, ?_, hsub.cons _, hnd, hnin, ?_⟩
      · unfold mergeSurfacesLoop
        rw [if_pos h]
        exact heq
      · intro t ht hnt
        rcases List.mem_cons.mp ht with rfl | htr
        · exact absurd h hnt
        · exact hcomp t htr hnt
    · obtain ⟨added, heq, hsub, hnd, hnin, hcomp⟩ := ih (es ++ [s]) (names ++ [s.name]) (n + 1)
      refine ⟨s :: added, ?_, hsub.cons₂ _, ?_, ?_, ?_⟩
      · unfold mergeSurfacesLoop
        rw [if_neg h, heq]
        simp [List.append_assoc]
        omega
      · refine List.nodup_cons.mpr ⟨?_, hnd⟩
        intro hmem
        obtain ⟨t, htm, hteq⟩ := List.mem_map.mp hmem
        have := hnin t htm
        rw [hteq] at this
        exact this (by simp)
      · intro t ht
        rcases List.mem_cons.mp ht with rfl | htr
        · exact h
        · intro hc
          exact (hnin t htr) (by simp [hc])
      · intro t ht hnt
        rcases List.mem_cons.mp ht with rfl | htr
        · simp
        · by_cases he : t.name = s.name
          · simp [he]
          · have : t.name ∉ names ++ [s.name] := by
              simp only [List.mem_append, List.mem_singleton]
              rintro (hx | hx)
              · exact hnt hx
              · exact he hx
            have := hcomp t htr this
            simp only [List.map_cons, List.mem_cons]
            exact Or.inr this

/-- Skipping a candidate with a falsy id leaves the merge state alone. -/
theorem mergeStep_falsy (st : List Boiler × Nat) (c : Boiler)
    (h : ¬ c.id.truthy = true) : mergeStep st c = st := by
  unfold mergeStep
  rw [if_pos h]

/-- A candidate whose id is not present is appended whole and counted. -/
theorem mergeStep_new (st : List Boiler × Nat) (c : Boiler)
    (ht : c.id.truthy = true) (h : lastIdxOf st.1 c.id = none) :
    mergeStep st c = (st.1 ++ [c], st.2 + 1) := by
  unfold mergeStep
  rw [if_neg (not_not_intro ht), h]

/-- A candidate whose id is found at (last) index `i` appends the `added`
surfaces computed by the inner loop to that boiler and counts them. -/
theorem mergeStep_found (st : List Boiler × Nat) (c : Boiler) (i : Nat)
    (ht : c.id.truthy = true) (h : lastIdxOf st.1 c.id = some i)
    (added : List Surface) (names : List Value)
    (hloop : mergeSurfacesLoop (st.1.getD i default).surfaces
        (truthyNames (st.1.getD i default).surfaces) 0 c.surfaces
      = ((st.1.getD i default).surfaces ++ added, names, added.length)) :
    mergeStep st c
      = (updateAt st.1 i ((st.1.getD i default).surfaces ++ added),
         st.2 + added.length) := by
  unfold mergeStep
  rw [if_neg (not_not_intro ht), h]
  simp only [hloop]

theorem length_updateAt (bs : List Boiler) (i : Nat) (surfs : List Surface) :
    (updateAt bs i surfs).length = bs.length := by
  unfold updateAt
  exact List.length_set bs i _

theorem totalSurf_updateAt (bs : List Boiler) (i : Nat) (surfs : List Surface)
    (h : i < bs.length) :
    totalSurf (updateAt bs i surfs) + (bs.getD i default).surfaces.length
      = totalSurf bs + surfs.length :=
  totalSurf_set bs i _ default h

/-- The candidate fold of the merger, with the catalog split into the
pre-existing prefix and the appended suffix: provided no two (truthy)
incoming ids coincide and no incoming id collides with an already
appended boiler, the fold appends `newapp` whole boilers after `app`,
keeps the prefix length, and raises the count by `newapp.length` plus
the total number of surfaces gained by the prefix. -/
theorem merge_fold_spec (cs : List Boiler) :
    ∀ (upd app : List Boiler) (n : Nat),
    ((cs.filter (fun c => c.id.truthy)).map Boiler.id).Nodup →
    (∀ c ∈ cs, c.id.truthy = true → ∀ b ∈ app, b.id ≠ c.id) →
    ∃ (updF newapp : List Boiler) (k : Nat),
      cs.foldl mergeStep (upd ++ app, n)
        = (updF ++ (app ++ newapp), n + newapp.length + k) ∧
      updF.length = upd.length ∧
      totalSurf updF = totalSurf upd + k := by
  induction cs with
  | nil =>
    intro upd app n _ _
    exact ⟨upd, [], 0, by simp, rfl, by simp⟩
  | cons c rest ih =>
    intro upd app n hnd happ
    rw [List.foldl_cons]
    by_cases hc : c.id.truthy = true
    case neg =>
      rw [mergeStep_falsy _ _ hc]
      refine ih upd app n ?_ ?_
      · rwa [List.filter_cons_of_neg (by simpa using hc)] at hnd
      · exact fun c' hc' ht' => happ c' (List.mem_cons_of_mem _ hc') ht'
    case pos =>
      have hfc : (c :: rest).filter (fun c => c.id.truthy) = c :: rest.filter (fun c => c.id.truthy) :=
        List.filter_cons_of_pos hc
      rw [hfc, List.map_cons, List.nodup_cons] at hnd
      have hndr := hnd.2
      have hcid : c.id ∉ (rest.filter (fun c => c.id.truthy)).map Boiler.id := hnd.1
      have happ' : ∀ b ∈ app, b.id ≠ c.id :=
        fun b hb => happ c (List.mem_cons_self c rest) hc b hb
      cases hli : lastIdxOf upd c.id with
      | none =>
        have hstep : mergeStep (upd ++ app, n) c = (upd ++ (app ++ [c]), n + 1) := by
          rw [mergeStep_new _ _ hc (by rw [lastIdxOf_append _ _ _ happ']; exact hli)]
          simp [List.append_assoc]
        rw [hstep]
        have hside : ∀ c' ∈ rest, c'.id.truthy = true → ∀ b ∈ app ++ [c], b.id ≠ c'.id := by
          intro c' hc' ht' b hb
          rcases List.mem_append.mp hb with hba | hbc
          · exact happ c' (List.mem_cons_of_mem _ hc') ht' b hba
          · rw [List.mem_singleton.mp hbc]
            intro hbe
            apply hcid
            rw [hbe]
            exact List.mem_map_of_mem Boiler.id (List.mem_filter.mpr ⟨hc', ht'⟩)
        obtain ⟨updF, newapp, k, heq, hlen, hts⟩ := ih upd (app ++ [c]) (n + 1) hndr hside
        refine ⟨updF, c :: newapp, k, ?_, hlen, hts⟩
        rw [heq]
        have h1 : app ++ [c] ++ newapp = app ++ c :: newapp := by simp
        rw [h1]
        have h2 : n + 1 + newapp.length + k = n + (c :: newapp).length + k := by
          simp only [List.length_cons]
          omega
        rw [h2]
      | some i =>
        have hl : i < upd.length := lastIdxOf_lt_length _ _ _ hli
        obtain ⟨added, hloop, _, _, _, _⟩ :=
          mergeSurfacesLoop_spec c.surfaces (upd.getD i default).surfaces
            (truthyNames (upd.getD i default).surfaces) 0
        have hgd : (upd ++ app).getD i default = upd.getD i default :=
          List.getD_append upd app default i hl
        have hstep : mergeStep (upd ++ app, n) c
            = (updateAt upd i ((upd.getD i default).surfaces ++ added) ++ app,
               n + added.length) := by
          rw [mergeStep_found (upd ++ app, n) c i hc
            (by rw [lastIdxOf_append _ _ _ happ']; exact hli)
            added _ (by rw [hgd]; simpa using hloop)]
          rw [hgd]
          unfold updateAt
          rw [hgd, List.set_append, if_pos hl]
        rw [hstep]
        obtain ⟨updF, newapp, k, heq, hlen, hts⟩ :=
          ih (updateAt upd i ((upd.getD i default).surfaces ++ added))
            app (n + added.length) hndr
            (fun c' hc' ht' => happ c' (List.mem_cons_of_mem _ hc') ht')
        refine ⟨updF, newapp, added.length + k, ?_, ?_, ?_⟩
        · rw [heq]
          have h2 : n + added.length + newapp.length + k
              = n + newapp.length + (added.length + k) := by omega
          rw [h2]
        · rw [hlen, length_updateAt]
        · have hset := totalSurf_updateAt upd i
            ((upd.getD i default).surfaces ++ added) hl
          simp only [List.length_append] at hset
          omega

theorem length_surfaceRows (b : Boiler) (s : Surface) :
    (surfaceRows b s).length
      = if s.components = [] then 1 else s.components.length := by
  unfold surfaceRows
  split
  · rfl
  · exact List.length_map _ _

theorem length_flatten (data : Catalog) :
    (flatten_surfaces data).length
      = (data.boilers.map (fun b => (b.surfaces.map (fun s =>
          if s.components = [] then 1 else s.components.length)).sum)).sum := by
  unfold flatten_surfaces
  rw [List.length_flatMap]
  congr 1
  apply List.map_congr_left
  intro b _
  simp only [Function.comp_apply]
  rw [List.length_flatMap]
  congr 1
  apply List.map_congr_left
  intro s _
  simp only [Function.comp_apply]
  exact length_surfaceRows b s

theorem componentRow_mem_flatten (data : Catalog) (b : Boiler) (s : Surface)
    (c : Component) (hb : b ∈ data.boilers) (hs : s ∈ b.surfaces)
    (hc : c ∈ s.components) :
    componentRow b s c ∈ flatten_surfaces data := by
  unfold flatten_surfaces
  rw [List.mem_flatMap]
  refine ⟨b, hb, ?_⟩
  rw [List.mem_flatMap]
  refine ⟨s, hs, ?_⟩
  unfold surfaceRows
  rw [if_neg (fun he => by rw [he] at hc; simp at hc)]
  exact List.mem_map_of_mem _ hc

/-! Claim theorems. -/

/-- C1, counterexample: in `exCatSteel` the single surface carries steel
"Ст20" and its only component provides no steel field, yet the one
emitted row has steel `vNone` instead of falling back to the surface's
value — so the claimed fallback for every leaf field is false. -/
theorem C1_counterexample :
    (flatten_surfaces exCatSteel).map Row.steel = [Value.vNone] ∧
    exSurfSteel.steel = Value.vStr "Ст20" ∧
    exBareComp.steel = Value.vNone ∧
    Value.vNone ≠ Value.vStr "Ст20" := by
  refine ⟨rfl, rfl, rfl, by decide⟩

/-- C1, amended: every component of a surface yields a row in the
flattened output whose `steel`, `pressure`, `temperature`,
`outer_diameter` and `wall_thickness` are taken from the component alone
(no fallback to the surface), whose `section` falls back to the
surface's value exactly when the component's is falsy, and whose `notes`
falls back to the surface's notes (or "") exactly when the component
omits the key. -/
theorem C1_component_row_fields (data : Catalog) (b : Boiler) (s : Surface)
    (c : Component) (hb : b ∈ data.boilers) (hs : s ∈ b.surfaces)
    (hc : c ∈ s.components) :
    ∃ r ∈ flatten_surfaces data,
      r.steel = c.steel ∧ r.pressure = c.pressure ∧
      r.temperature = c.temperature ∧ r.outer_diameter = c.outerDiameter ∧
      r.wall_thickness = c.wallThickness ∧
      r.section' = (if (Component.section' c).truthy then c.section' else s.section') ∧
      r.notes = c.notes.getD (s.notes.getD (.vStr "")) :=
  ⟨componentRow b s c, componentRow_mem_flatten data b s c hb hs hc,
   rfl, rfl, rfl, rfl, rfl, rfl, rfl⟩

/-- Witness for C1 at the concrete catalog `exCatSteel`. -/
theorem C1_witness :
    ∃ r ∈ flatten_surfaces exCatSteel,
      r.steel = exBareComp.steel ∧ r.pressure = exBareComp.pressure ∧
      r.temperature = exBareComp.temperature ∧
      r.outer_diameter = exBareComp.outerDiameter ∧
      r.wall_thickness = exBareComp.wallThickness ∧
      r.section' = (if (Component.section' exBareComp).truthy
          then exBareComp.section' else exSurfSteel.section') ∧
      r.notes = exBareComp.notes.getD (exSurfSteel.notes.getD (.vStr "")) :=
  C1_component_row_fields exCatSteel exBoilerSteel exSurfSteel exBareComp
    (by decide) (by decide) (by decide)

/-- C4: flattening yields one row per component-free surface and one row
per component otherwise; in particular the catalog `exCatTwo` with N = 2
surfaces, one of which has two components, yields 2 - 1 + 2 = 3 rows. -/
theorem C4_flatten_row_count :
    (∀ data : Catalog, (flatten_surfaces data).length
        = (data.boilers.map (fun b => (b.surfaces.map (fun s =>
            if s.components = [] then 1 else s.components.length)).sum)).sum) ∧
    (flatten_surfaces exCatTwo).length = 2 - 1 + 2 :=
  ⟨length_flatten, rfl⟩

/-- C5: a row is kept by the sidebar filter exactly when, for each of the
five dimensions, either the selection is empty (no filtering on that
dimension) or the row's value for that dimension is a member of the
selection — and the free-text query, when non-empty, matches. -/
theorem C5_filter_dimensions
    (stationSel typeSel steelSel catSel sysSel : List Value) (query : String)
    (rows : List Row) (r : Row) :
    r ∈ rows.filter (row_matches stationSel typeSel steelSel catSel sysSel query) ↔
      r ∈ rows ∧
      (stationSel = [] ∨ r.station ∈ stationSel) ∧
      (typeSel = [] ∨ r.boiler_type ∈ typeSel) ∧
      (steelSel = [] ∨ r.steel ∈ steelSel) ∧
      (catSel = [] ∨ r.category ∈ catSel) ∧
      (sysSel = [] ∨ r.system ∈ sysSel) ∧
      (query = "" ∨ match_query r query = true) := by
  rw [List.mem_filter]
  have h : row_matches stationSel typeSel steelSel catSel sysSel query r = true ↔
      (stationSel = [] ∨ r.station ∈ stationSel) ∧
      (typeSel = [] ∨ r.boiler_type ∈ typeSel) ∧
      (steelSel = [] ∨ r.steel ∈ steelSel) ∧
      (catSel = [] ∨ r.category ∈ catSel) ∧
      (sysSel = [] ∨ r.system ∈ sysSel) ∧
      (query = "" ∨ match_query r query = true) := by
    unfold row_matches
    split_ifs with h1 h2 h3 h4 h5 h6
    · simp only [Bool.false_eq_true, false_iff]
      rintro ⟨hA, -, -, -, -, -⟩
      rcases hA with hA | hA
      · exact h1.1 hA
      · exact h1.2 hA
    · simp only [Bool.false_eq_true, false_iff]
      rintro ⟨-, hA, -, -, -, -⟩
      rcases hA with hA | hA
      · exact h2.1 hA
      · exact h2.2 hA
    · simp only [Bool.false_eq_true, false_iff]
      rintro ⟨-, -, hA, -, -, -⟩
      rcases hA with hA | hA
      · exact h3.1 hA
      · exact h3.2 hA
    · simp only [Bool.false_eq_true, false_iff]
      rintro ⟨-, -, -, hA, -, -⟩
      rcases hA with hA | hA
      · exact h4.1 hA
      · exact h4.2 hA
    · simp only [Bool.false_eq_true, false_iff]
      rintro ⟨-, -, -, -, hA, -⟩
      rcases hA with hA | hA
      · exact h5.1 hA
      · exact h5.2 hA
    · simp only [Bool.false_eq_true, false_iff]
      rintro ⟨-, -, -, -, -, hA⟩
      rcases hA with hA | hA
      · exact h6.1 hA
      · rw [h6.2] at hA
        exact Bool.false_ne_true hA
    · refine iff_of_true rfl ⟨?_, ?_, ?_, ?_, ?_, ?_⟩
      · tauto
      · tauto
      · tauto
      · tauto
      · tauto
      · by_cases hq : query = ""
        · exact Or.inl hq
        · right
          cases hb : match_query r query with
          | false => exact absurd ⟨hq, hb⟩ h6
          | true => rfl
  rw [h]

/-- C6: the query matcher returns true iff the lower-cased query occurs
as a contiguous substring of the lower-cased string form of some
non-null field value of the row, list values being joined with spaces
first; in particular the query "ст20" matches a row whose steel field is
"Ст20". -/
theorem C6_match_query_characterisation :
    (∀ (row : Row) (query : String),
      match_query row query = true ↔
        ∃ v ∈ row.values, v ≠ Value.vNone ∧
          ∃ pre post, lowerData (displayStr v) = pre ++ lowerData query ++ post) ∧
    match_query exRowSteel "ст20" = true := by
  constructor
  · intro row query
    unfold match_query
    rw [List.any_eq_true]
    constructor
    · rintro ⟨v, hv, hp⟩
      refine ⟨v, hv, ?_⟩
      match v with
      | .vNone => exact absurd hp (by simp)
      | .vStr s => exact ⟨by simp, (containsSub_iff _ _).mp hp⟩
      | .vInt n => exact ⟨by simp, (containsSub_iff _ _).mp hp⟩
      | .vRat q => exact ⟨by simp, (containsSub_iff _ _).mp hp⟩
      | .vList xs => exact ⟨by simp, (containsSub_iff _ _).mp hp⟩
    · rintro ⟨v, hv, hne, pre, post, hsub⟩
      refine ⟨v, hv, ?_⟩
      match v with
      | .vNone => exact absurd rfl hne
      | .vStr s => exact (containsSub_iff _ _).mpr ⟨pre, post, hsub⟩
      | .vInt n => exact (containsSub_iff _ _).mpr ⟨pre, post, hsub⟩
      | .vRat q => exact (containsSub_iff _ _).mpr ⟨pre, post, hsub⟩
      | .vList xs => exact (containsSub_iff _ _).mpr ⟨pre, post, hsub⟩
  · rfl

/-- If every incoming surface name is already in the name set, the inner
merge loop changes nothing. -/
theorem mergeSurfacesLoop_all_mem (inc : List Surface) (es : List Surface)
    (names : List Value) (n : Nat) (h : ∀ s ∈ inc, s.name ∈ names) :
    mergeSurfacesLoop es names n inc = (es, names, n) := by
  induction inc with
  | nil => rfl
  | cons s rest ih =>
    unfold mergeSurfacesLoop
    rw [if_pos (h s (List.mem_cons_self s rest))]
    exact ih (fun t ht => h t (List.mem_cons_of_mem _ ht))

/-- Writing back a boiler's own surface list is the identity. -/
theorem updateAt_getD_self (bs : List Boiler) (i : Nat) :
    updateAt bs i (bs.getD i default).surfaces = bs := by
  unfold updateAt
  have he : { bs.getD i default with
      surfaces := (bs.getD i default).surfaces } = bs.getD i default := rfl
  rw [he]
  exact set_getD_self bs i default

/-- C2: the integer returned by the merger counts exactly the newly
appended boiler records plus the surfaces newly appended to pre-existing
boilers (stated for fragments whose truthy boiler ids are pairwise
distinct, which the Catalog schema's unique-id invariant guarantees);
and, in particular, merging a fragment holding one boiler with an
existing id and a single surface whose name is not among that boiler's
surface names appends exactly that surface and returns 1. -/
theorem C2_merge_count :
    (∀ existing incoming : Catalog,
      ((incoming.boilers.filter (fun c => c.id.truthy)).map Boiler.id).Nodup →
      (merge_uploaded_boilers existing incoming).2
        = ((merge_uploaded_boilers existing incoming).1.boilers.length
            - existing.boilers.length)
          + (totalSurf ((merge_uploaded_boilers existing incoming).1.boilers.take
              existing.boilers.length)
             - totalSurf existing.boilers)) ∧
    (∀ (existing : Catalog) (c : Boiler) (s : Surface) (i : Nat),
      c.surfaces = [s] → c.id.truthy = true →
      lastIdxOf existing.boilers c.id = some i →
      s.name ∉ ((existing.boilers.getD i default).surfaces.map Surface.name) →
      merge_uploaded_boilers existing ⟨[c]⟩
        = (⟨updateAt existing.boilers i
              ((existing.boilers.getD i default).surfaces ++ [s])⟩, 1)) := by
  constructor
  · intro ex inc hnd
    obtain ⟨updF, newapp, k, heq, hlen, hts⟩ :=
      merge_fold_spec inc.boilers ex.boilers [] 0 hnd (by simp)
    rw [List.append_nil] at heq
    rw [List.nil_append] at heq
    rw [Nat.zero_add] at heq
    have hm : merge_uploaded_boilers ex inc = (⟨updF ++ newapp⟩, newapp.length + k) := by
      unfold merge_uploaded_boilers
      rw [heq]
    rw [hm]
    have h2 : (updF ++ newapp).take ex.boilers.length = updF := by
      rw [← hlen]
      exact List.take_left updF newapp
    have h1 : (updF ++ newapp).length = ex.boilers.length + newapp.length := by
      rw [List.length_append, hlen]
    simp only [h1, h2]
    omega
  · intro ex c s i hcs hct hli hname
    have hnotin : s.name ∉ truthyNames (ex.boilers.getD i default).surfaces := by
      intro hmem
      exact hname (List.mem_of_mem_filter hmem)
    have hloop : mergeSurfacesLoop (ex.boilers.getD i default).surfaces
        (truthyNames (ex.boilers.getD i default).surfaces) 0 c.surfaces
      = ((ex.boilers.getD i default).surfaces ++ [s],
         truthyNames (ex.boilers.getD i default).surfaces ++ [s.name], 1) := by
      rw [hcs]
      unfold mergeSurfacesLoop
      rw [if_neg hnotin]
      rfl
    unfold merge_uploaded_boilers
    simp only [List.foldl_cons, List.foldl_nil]
    rw [mergeStep_found (ex.boilers, 0) c i hct hli [s] _ hloop]
    rfl

/-- Witness for C2 at the concrete catalogs: merging "B1"/"S2" into a
catalog already holding "B1"/"S1" appends the one surface and returns 1,
and the count accounting holds there. -/
theorem C2_witness :
    ((merge_uploaded_boilers exCatMerge exIncMerge).2
      = ((merge_uploaded_boilers exCatMerge exIncMerge).1.boilers.length
          - exCatMerge.boilers.length)
        + (totalSurf ((merge_uploaded_boilers exCatMerge exIncMerge).1.boilers.take
            exCatMerge.boilers.length)
           - totalSurf exCatMerge.boilers)) ∧
    merge_uploaded_boilers exCatMerge exIncMerge
      = (⟨updateAt exCatMerge.boilers 0
            ((exCatMerge.boilers.getD 0 default).surfaces ++ [exSurfS2])⟩, 1) :=
  ⟨C2_merge_count.1 exCatMerge exIncMerge (by decide),
   C2_merge_count.2 exCatMerge exIncBoilerMerge exSurfS2 0 rfl (by decide)
     (by decide) (by decide)⟩

/-- C3, counterexample: the fragment `exIncEmptyName` names only boiler
"B1", which exists in `exCatEmptyName`, and its only surface name (the
empty string) is already present among that boiler's surface names — yet
the merge returns 1 and changes the catalog, because the merger's name
set keeps only truthy names. -/
theorem C3_counterexample :
    exBoilerEmptyName.id ∈ exCatEmptyName.boilers.map Boiler.id ∧
    (∀ s ∈ exBoilerEmptyName.surfaces,
      s.name ∈ (exCatEmptyName.boilers.getD 0 default).surfaces.map Surface.name) ∧
    (merge_uploaded_boilers exCatEmptyName exIncEmptyName).2 = 1 ∧
    (merge_uploaded_boilers exCatEmptyName exIncEmptyName).1 ≠ exCatEmptyName := by
  refine ⟨by decide, by decide, by decide, by decide⟩

/-- C3, amended: if every incoming boiler's id resolves to a boiler of
the catalog and every incoming surface has a truthy (non-empty) name
already present among that boiler's surface names, the merge returns 0
and leaves the catalog exactly unchanged. -/
theorem C3_merge_noop (existing incoming : Catalog)
    (h : ∀ c ∈ incoming.boilers, ∃ i,
      lastIdxOf existing.boilers c.id = some i ∧
      ∀ s ∈ c.surfaces, s.name.truthy = true ∧
        s.name ∈ ((existing.boilers.getD i default).surfaces.map Surface.name)) :
    merge_uploaded_boilers existing incoming = (existing, 0) := by
  have hfold : ∀ cs : List Boiler,
      (∀ c ∈ cs, ∃ i,
        lastIdxOf existing.boilers c.id = some i ∧
        ∀ s ∈ c.surfaces, s.name.truthy = true ∧
          s.name ∈ ((existing.boilers.getD i default).surfaces.map Surface.name)) →
      ∀ n : Nat, cs.foldl mergeStep (existing.boilers, n) = (existing.boilers, n) := by
    intro cs
    induction cs with
    | nil => intro _ n; rfl
    | cons c rest ih =>
      intro hcs n
      rw [List.foldl_cons]
      have hstep : mergeStep (existing.boilers, n) c = (existing.boilers, n) := by
        by_cases hct : c.id.truthy = true
        · obtain ⟨i, hli, hall⟩ := hcs c (List.mem_cons_self c rest)
          have hloop : mergeSurfacesLoop (existing.boilers.getD i default).surfaces
              (truthyNames (existing.boilers.getD i default).surfaces) 0 c.surfaces
            = ((existing.boilers.getD i default).surfaces ++ [],
               truthyNames (existing.boilers.getD i default).surfaces, 0) := by
            rw [List.append_nil]
            exact mergeSurfacesLoop_all_mem c.surfaces _ _ 0
              (fun s hs => List.mem_filter.mpr ⟨(hall s hs).2, (hall s hs).1⟩)
          rw [mergeStep_found (existing.boilers, n) c i hct hli [] _ hloop]
          rw [List.append_nil, updateAt_getD_self]
          rfl
        · exact mergeStep_falsy _ _ hct
      rw [hstep]
      exact ih (fun c' hc' => hcs c' (List.mem_cons_of_mem _ hc')) n
  unfold merge_uploaded_boilers
  rw [hfold incoming.boilers h 0]

/-- Witness for C3 at a concrete input: merging a fragment equal to the
existing boiler (same id, same truthy surface name) returns 0 and leaves
the catalog unchanged. -/
theorem C3_witness :
    merge_uploaded_boilers exCatMerge exIncSame = (exCatMerge, 0) :=
  C3_merge_noop exCatMerge exIncSame (by
    intro c hc
    rw [show exIncSame.boilers = [exBoilerMerge] from rfl, List.mem_singleton] at hc
    subst hc
    exact ⟨0, by decide, by decide⟩)

/-- C9: merging a fragment with one boiler whose id resolves to boiler
`i` of the catalog appends some sublist `added` of the fragment's
surfaces, counted once each; the added surfaces have pairwise-distinct
names (so duplicates within the fragment are appended at most once),
none of their names was already a truthy name of the target, and every
fragment surface whose name is new has exactly one representative among
the added names. -/
theorem C9_fragment_dedup (existing : Catalog) (c : Boiler) (i : Nat)
    (hct : c.id.truthy = true)
    (hli : lastIdxOf existing.boilers c.id = some i) :
    ∃ added : List Surface,
      merge_uploaded_boilers existing ⟨[c]⟩
        = (⟨updateAt existing.boilers i
              ((existing.boilers.getD i default).surfaces ++ added)⟩,
           added.length) ∧
      List.Sublist added c.surfaces ∧
      (added.map Surface.name).Nodup ∧
      (∀ s ∈ added,
        s.name ∉ truthyNames (existing.boilers.getD i default).surfaces) ∧
      (∀ s ∈ c.surfaces,
        s.name ∉ truthyNames (existing.boilers.getD i default).surfaces →
        s.name ∈ added.map Surface.name) := by
  obtain ⟨added, hloop, hsub, hnd, hnin, hcomp⟩ :=
    mergeSurfacesLoop_spec c.surfaces (existing.boilers.getD i default).surfaces
      (truthyNames (existing.boilers.getD i default).surfaces) 0
  refine ⟨added, ?_, hsub, hnd, hnin, hcomp⟩
  unfold merge_uploaded_boilers
  simp only [List.foldl_cons, List.foldl_nil]
  rw [mergeStep_found (existing.boilers, 0) c i hct hli added _ (by simpa using hloop)]
  simp

/-- Witness for C9 at the concrete catalogs: the fragment carries two
surfaces both named "S2" over the existing boiler "B1". -/
theorem C9_witness :
    ∃ added : List Surface,
      merge_uploaded_boilers exCatMerge exIncDup
        = (⟨updateAt exCatMerge.boilers 0
              ((exCatMerge.boilers.getD 0 default).surfaces ++ added)⟩,
           added.length) ∧
      List.Sublist added exIncBoilerDup.surfaces ∧
      (added.map Surface.name).Nodup ∧
      (∀ s ∈ added,
        s.name ∉ truthyNames (exCatMerge.boilers.getD 0 default).surfaces) ∧
      (∀ s ∈ exIncBoilerDup.surfaces,
        s.name ∉ truthyNames (exCatMerge.boilers.getD 0 default).surfaces →
        s.name ∈ added.map Surface.name) :=
  C9_fragment_dedup exCatMerge exIncBoilerDup 0 (by decide) (by decide)

/-- The zero-versus-positive behaviour of one numeric form field. -/
theorem numericField_spec (q : ℚ) (h : 0 ≤ q) :
    ((if 0 < q then some q else none) = none ↔ q = 0) ∧
    (0 < q → (if 0 < q then some q else none) = some q) := by
  constructor
  · split_ifs with hq
    · constructor
      · intro hx
        exact absurd hx (by simp)
      · intro hx
        rw [hx] at hq
        exact absurd hq (lt_irrefl 0)
    · exact iff_of_true rfl (le_antisymm (not_lt.mp hq) h)
  · intro hq
    rw [if_pos hq]

/-- C7: each numeric field of the submitted surface payload is `None`
exactly when the entered value is zero (the widgets clamp entries to be
nonnegative, so zero means unset), and equals the entered value when it
is strictly positive. -/
theorem C7_numeric_fields (f : SurfaceForm)
    (hp : 0 ≤ f.pressure) (ht : 0 ≤ f.temperature)
    (hd : 0 ≤ f.outer_diameter) (hw : 0 ≤ f.wall_thickness) :
    (((build_surface_payload f).pressure = none ↔ f.pressure = 0) ∧
      (0 < f.pressure → (build_surface_payload f).pressure = some f.pressure)) ∧
    (((build_surface_payload f).temperature = none ↔ f.temperature = 0) ∧
      (0 < f.temperature →
        (build_surface_payload f).temperature = some f.temperature)) ∧
    (((build_surface_payload f).outerDiameter = none ↔ f.outer_diameter = 0) ∧
      (0 < f.outer_diameter →
        (build_surface_payload f).outerDiameter = some f.outer_diameter)) ∧
    (((build_surface_payload f).wallThickness = none ↔ f.wall_thickness = 0) ∧
      (0 < f.wall_thickness →
        (build_surface_payload f).wallThickness = some f.wall_thickness)) :=
  ⟨numericField_spec f.pressure hp, numericField_spec f.temperature ht,
   numericField_spec f.outer_diameter hd, numericField_spec f.wall_thickness hw⟩

/-- Witness for C7 at the concrete form `exForm` (pressure entered as 14,
temperature left at 0). -/
theorem C7_witness :
    ((build_surface_payload exForm).pressure = none ↔ exForm.pressure = 0) ∧
    (0 < exForm.pressure →
      (build_surface_payload exForm).pressure = some exForm.pressure) :=
  (C7_numeric_fields exForm (by norm_num [exForm]) (by norm_num [exForm])
    (by norm_num [exForm]) (by norm_num [exForm])).1

/-- C8: a submitted surface whose name strips to the empty string is
rejected with the empty-name error; the catalog is returned unchanged
and nothing is saved to disk. -/
theorem C8_empty_name_rejected (data : Catalog) (sel : Selection)
    (nb : NewBoilerForm) (f : SurfaceForm) (h : f.surface_name.pyStrip = "") :
    handleSurfaceSubmit data sel nb (some f)
      = ⟨data, false, some FormMsg.errEmptyName⟩ := by
  simp only [handleSurfaceSubmit]
  have h' : (build_surface_payload f).name = "" := h
  rw [if_pos h']

/-- Witness for C8: a whitespace-only surface name is rejected and the
catalog is untouched. -/
theorem C8_witness :
    exFormBlank.surface_name.pyStrip = "" ∧
    handleSurfaceSubmit exCatMerge Selection.newBoiler exNewBoiler (some exFormBlank)
      = ⟨exCatMerge, false, some FormMsg.errEmptyName⟩ :=
  ⟨by decide,
   C8_empty_name_rejected exCatMerge Selection.newBoiler exNewBoiler exFormBlank
     (by decide)⟩

/-- C10: on a successful new-boiler submission the appended record holds
the non-empty stripped id and the one new surface; `name`, `location`
and `notes` are present exactly when non-empty after stripping; and
`station` and `boilerType` are never set by the form. -/
theorem C10_new_boiler_record (data : Catalog) (nb : NewBoilerForm) (f : SurfaceForm)
    (hname : (build_surface_payload f).name ≠ "") (hid : nb.id.pyStrip ≠ "") :
    handleSurfaceSubmit data Selection.newBoiler nb (some f)
      = ⟨⟨data.boilers ++
          [{ id := .vStr nb.id.pyStrip,
             name := if nb.name.pyStrip = "" then .vNone else .vStr nb.name.pyStrip,
             station := .vNone,
             boilerType := .vNone,
             location := if nb.location.pyStrip = ""
               then .vNone else .vStr nb.location.pyStrip,
             notes := if nb.notes.pyStrip = "" then .vNone else .vStr nb.notes.pyStrip,
             surfaces := [payloadToSurface (build_surface_payload f)] }]⟩,
         true, some FormMsg.okNewBoiler⟩ := by
  simp only [handleSurfaceSubmit]
  rw [if_neg hname, if_neg hid]
  unfold newBoilerRecord
  rw [if_neg hid]

/-- Witness for C10 at the concrete forms `exNewBoiler` (empty name and
notes, non-empty id and location) and `exForm`. -/
theorem C10_witness :
    handleSurfaceSubmit exCatMerge Selection.newBoiler exNewBoiler (some exForm)
      = ⟨⟨exCatMerge.boilers ++
          [{ id := .vStr exNewBoiler.id.pyStrip,
             name := if exNewBoiler.name.pyStrip = ""
               then .vNone else .vStr exNewBoiler.name.pyStrip,
             station := .vNone,
             boilerType := .vNone,
             location := if exNewBoiler.location.pyStrip = ""
               then .vNone else .vStr exNewBoiler.location.pyStrip,
             notes := if exNewBoiler.notes.pyStrip = ""
               then .vNone else .vStr exNewBoiler.notes.pyStrip,
             surfaces := [payloadToSurface (build_surface_payload exForm)] }]⟩,
         true, some FormMsg.okNewBoiler⟩ :=
  C10_new_boiler_record exCatMerge exNewBoiler exForm (by decide) (by decide)

end Basakotel
